import Mathlib

/-!
The example command line of go-netstat and the IPv4 address decoder

A shallow embedding of `example-cli/main.go` (flag handling, feature
selection, acceptance predicates, `commaStringToUint32Array`) together with
the parts of the Go standard library it calls, and of the IPv4 token decoder
exported as `ParseIPv4`.

Go strings are byte sequences; a string is modelled by the list of its bytes,
each byte a natural number.
-/

namespace GoNetstat

/-! ## Go strings and the standard library functions used by `main.go` -/

/-- A Go string, as the list of its bytes. -/
abbrev GoString := List Nat

/-- The byte of the comma separator used by `main.go`. -/
def comma : Nat := 44

/-- Errors of `strconv.ParseUint`: `ErrSyntax`, `ErrRange`, and the error for a
base the function does not support. -/
inductive NumError where
  | ErrSyntax
  | ErrRange
  | ErrBase
  | ErrBitSize
  deriving DecidableEq, Repr

/-- The constant `maxUint64` of package strconv. -/
def maxUint64 : Nat := 2 ^ 64 - 1

/-- The helper `lower` of package strconv: the byte with bit 0x20 set. -/
def lower (c : Nat) : Nat := c ||| 32

/-- The digit value strconv.ParseUint assigns to a byte: decimal digits, then
letters of either case from 10 on; `none` is the `default` arm of the switch
(syntax error). The underscore arm only exists for base 0. -/
def digitOf (c : Nat) : Option Nat :=
  if 48 ≤ c ∧ c ≤ 57 then some (c - 48)
  else if 97 ≤ lower c ∧ lower c ≤ 122 then some (lower c - 97 + 10)
  else none

/-- The digit loop of `strconv.ParseUint`, with `n` the accumulated `uint64`.
The result is the pair `(value, error)` the function returns. -/
def parseUintLoop (base maxVal cutoff : Nat) : GoString → Nat → Nat × Option NumError
  | [], n => (n, none)
  | c :: cs, n =>
    match digitOf c with
    | none => (0, some NumError.ErrSyntax)
    | some d =>
      if d ≥ base then (0, some NumError.ErrSyntax)
      else if n ≥ cutoff then (maxVal, some NumError.ErrRange)
      else
        let n0 := (n * base) % 2 ^ 64
        let n1 := (n0 + d) % 2 ^ 64
        if n1 < n0 ∨ n1 > maxVal then (maxVal, some NumError.ErrRange)
        else parseUintLoop base maxVal cutoff cs n1

/-- The function `strconv.ParseUint(s, base, bitSize)` for an explicit base
between 2 and 36 (the automatic base 0 is not used by this program and is
reported like any other unsupported base here). -/
def ParseUint (s : GoString) (base bitSize : Nat) : Nat × Option NumError :=
  if s = [] then (0, some NumError.ErrSyntax)
  else if ¬ (2 ≤ base ∧ base ≤ 36) then (0, some NumError.ErrBase)
  else if bitSize > 64 then (0, some NumError.ErrBitSize)
  else
    let bits := if bitSize = 0 then 64 else bitSize
    let cutoff := maxUint64 / base + 1
    let maxVal := 2 ^ bits - 1
    parseUintLoop base maxVal cutoff s 0

/-- The function `strings.IndexByte`: position of the first occurrence of `c`,
`none` standing for the result -1. -/
def IndexByte : GoString → Nat → Option Nat
  | [], _ => none
  | b :: bs, c => if b = c then some 0 else (IndexByte bs c).map (· + 1)

/-- The function `strings.Count` for a one-byte separator. -/
def Count (s : GoString) (c : Nat) : Nat := s.count c

/-- The loop of `strings.genSplit` for a one-byte separator: at most `k` cuts
at the first remaining separator, then the rest of the string. -/
def genSplitLoop (sep : Nat) : Nat → GoString → List GoString
  | 0, s => [s]
  | k + 1, s =>
    match IndexByte s sep with
    | none => [s]
    | some m => s.take m :: genSplitLoop sep k (s.drop (m + 1))

/-- The function `strings.Split(s, sep)` for a one-byte separator: the loop runs
`Count(s, sep)` times and the result has `Count(s, sep) + 1` fields. -/
def Split (s : GoString) (sep : Nat) : List GoString :=
  genSplitLoop sep (Count s sep) s

/-! ## `net.IP` -/

/-- The prefix `v4InV6Prefix` of package net. -/
def v4InV6Prefix : List Nat := [0, 0, 0, 0, 0, 0, 0, 0, 0, 0, 255, 255]

/-- The address `net.IPv4zero`, in its 16-byte form. -/
def IPv4zero : List Nat := v4InV6Prefix ++ [0, 0, 0, 0]

/-- The address `net.IPv6unspecified`. -/
def IPv6unspecified : List Nat := List.replicate 16 0

/-- The method `net.IP.Equal`: equal byte slices, or an IPv4 address and its
IPv4-in-IPv6 form. -/
def IPEqual (ip x : List Nat) : Bool :=
  if ip.length = x.length then decide (ip = x)
  else if ip.length = 4 ∧ x.length = 16 then
    decide (x.take 12 = v4InV6Prefix) && decide (ip = x.drop 12)
  else if ip.length = 16 ∧ x.length = 4 then
    decide (ip.take 12 = v4InV6Prefix) && decide (ip.drop 12 = x)
  else false

/-- The method `net.IP.IsUnspecified`. -/
def IsUnspecified (ip : List Nat) : Bool :=
  IPEqual ip IPv4zero || IPEqual ip IPv6unspecified

/-! ## The types of package netstat that `main.go` uses -/

/-- Modelled from the spec: the declaration of `netstat.SockEndpoint` is not among
the sources; an endpoint is an IP address plus a port number, read by `main.go`
as `IP` and `Port`. -/
structure SockEndpoint where
  IP : List Nat
  Port : Nat
  deriving DecidableEq, Repr

/-- Modelled from the spec: the declaration of `netstat.SockTabEntry` is not among
the sources; these are the two endpoints `main.go` reads (the acceptance
predicates read the remote one only). Both endpoints of an entry are present,
as decoded from its table record. -/
structure SockTabEntry where
  LocalEndpoint : SockEndpoint
  RemoteEndpoint : SockEndpoint
  deriving DecidableEq, Repr

/-- Modelled from the spec: the declaration of `netstat.EnableFeatures` is not
among the sources; these are the fields `main.go` assigns, with Go zero
values as defaults. -/
structure EnableFeatures where
  TCP : Bool := false
  TCP6 : Bool := false
  UDP : Bool := false
  UDP6 : Bool := false
  UDPLite : Bool := false
  UDPLite6 : Bool := false
  Raw : Bool := false
  Raw6 : Bool := false
  PID : Bool := false
  AllNetNs : Bool := false
  NetNsPids : List Nat := []
  NetNsName : List GoString := []
  NoHostNetwork : Bool := false
  deriving DecidableEq, Repr

/-! ## `example-cli/main.go` -/

/-- The command-line flags declared at the top of `main.go`, after
`flag.Parse`. -/
structure Flags where
  listening : Bool := false
  all : Bool := false
  numeric : Bool := true
  verbose : Bool := false
  ipv4 : Bool := false
  ipv6 : Bool := false
  pid : Bool := false
  tcp : Bool := false
  udp : Bool := false
  udplite : Bool := false
  raw : Bool := false
  netNsName : GoString := []
  allNetNs : Bool := false
  help : Bool := false
  netNsPids : GoString := []
  deriving DecidableEq, Repr

/-- The loop of `commaStringToUint32Array`: field `i` is parsed and stored at
index `i` of the preallocated slice; the first parse error returns
`(nil, err)`. -/
def commaLoop : List GoString → Nat → List Nat → List Nat × Option NumError
  | [], _, uint32Values => (uint32Values, none)
  | strValue :: rest, i, uint32Values =>
    match ParseUint strValue 10 32 with
    | (_, some err) => ([], some err)
    | (uint32Value, none) =>
      commaLoop rest (i + 1) (uint32Values.set i (uint32Value % 2 ^ 32))

/-- The function `commaStringToUint32Array` of `main.go`; the pair is the Go result
`([]uint32, error)`, the nil slice being the empty list. -/
def commaStringToUint32Array (s : GoString) : List Nat × Option NumError :=
  let strValues := Split s comma
  let uint32Values := List.replicate strValues.length 0
  commaLoop strValues 0 uint32Values

/-- Protocol selection in `main` (the `if *verbose ... else if ... else`
statement). -/
def selectProtocols (f : Flags) : EnableFeatures :=
  let features : EnableFeatures := {}
  if f.verbose then
    { features with
      TCP := true, TCP6 := true, UDP := true, UDP6 := true,
      UDPLite := true, UDPLite6 := true, Raw := true, Raw6 := true }
  else if f.tcp || f.udp || f.udplite || f.raw then
    { features with
      TCP := f.tcp, TCP6 := f.tcp, UDP := f.udp, UDP6 := f.udp,
      UDPLite := f.udplite, UDPLite6 := f.udplite, Raw := f.raw, Raw6 := f.raw }
  else
    { features with TCP := true, TCP6 := true, UDP := true, UDP6 := true }

/-- Family filtering in `main` (the two `if` statements on `-4` and `-6`). -/
def filterFamilies (f : Flags) (features : EnableFeatures) : EnableFeatures :=
  let features : EnableFeatures :=
    if f.ipv4 && !f.ipv6 then
      { features with TCP6 := false, UDP6 := false, UDPLite6 := false, Raw6 := false }
    else features
  let features : EnableFeatures :=
    if f.ipv6 && !f.ipv4 then
      { features with TCP := false, UDP := false, UDPLite := false, Raw := false }
    else features
  features

/-- Process and namespace selection in `main` (from `features.PID = *pid` to the
`-netns` block). -/
def selectNamespaces (f : Flags) (features : EnableFeatures) : EnableFeatures :=
  let features : EnableFeatures := { features with PID := f.pid }
  let features : EnableFeatures := { features with AllNetNs := f.allNetNs }
  let features : EnableFeatures :=
    if f.netNsPids ≠ [] then
      let features : EnableFeatures :=
        { features with NetNsPids := (commaStringToUint32Array f.netNsPids).1 }
      if features.NetNsPids.length = 1 then { features with NoHostNetwork := true }
      else features
    else features
  let features : EnableFeatures :=
    if f.netNsName ≠ [] then
      let features : EnableFeatures := { features with NetNsName := Split f.netNsName comma }
      if features.NetNsName.length = 1 then { features with NoHostNetwork := true }
      else features
    else features
  features

/-- The value of `features` that `main` passes to `netstat.Netstat`. -/
def mainFeatures (f : Flags) : EnableFeatures :=
  selectNamespaces f (filterFamilies f (selectProtocols f))

/-- The `case *all` predicate of `main`. -/
def acceptAll : SockTabEntry → Bool :=
  fun _ => true

/-- The `case *listening` predicate of `main`. -/
def acceptListening : SockTabEntry → Bool :=
  fun s => IsUnspecified s.RemoteEndpoint.IP && decide (s.RemoteEndpoint.Port = 0)

/-- The `default` predicate of `main` (connected sockets). -/
def acceptEstablished : SockTabEntry → Bool :=
  fun s => !IsUnspecified s.RemoteEndpoint.IP && decide (s.RemoteEndpoint.Port ≠ 0)

/-- The acceptance predicate `fn` chosen by the `switch` in `main`. -/
def mainAcceptFn (f : Flags) : SockTabEntry → Bool :=
  if f.all then acceptAll
  else if f.listening then acceptListening
  else acceptEstablished

/-! ## Notions the statements about `commaStringToUint32Array` are phrased in -/

/-- A byte that is an ASCII decimal digit. -/
def isDecimalDigit (c : Nat) : Bool := decide (48 ≤ c ∧ c ≤ 57)

/-- The decimal value of a digit string read after the value `n`, without any
bound. -/
def decimalFrom : Nat → GoString → Nat
  | n, [] => n
  | n, c :: cs => decimalFrom (n * 10 + (c - 48)) cs

/-- The decimal value of a digit string, without any bound. -/
def decimalValue (s : GoString) : Nat := decimalFrom 0 s

/-- A field that denotes a uint32: a non-empty string of decimal digits whose
value is at most 4294967295. -/
def validField (s : GoString) : Prop :=
  s ≠ [] ∧ (∀ c ∈ s, isDecimalDigit c = true) ∧ decimalValue s ≤ 4294967295

instance : DecidablePred validField := fun s => by
  unfold validField
  infer_instance

/-- The digits of `n`, most significant first, put in front of `acc`; `k` bounds
the number of divisions by ten. -/
def decimalDigitsLoop : Nat → Nat → GoString → GoString
  | 0, n, acc => (48 + n % 10) :: acc
  | k + 1, n, acc =>
    if n < 10 then (48 + n) :: acc
    else decimalDigitsLoop k (n / 10) ((48 + n % 10) :: acc)

/-- The decimal rendering of a natural number (no sign, no leading zero, "0"
for zero). -/
def decimalRendering (n : Nat) : GoString := decimalDigitsLoop n n []

/-- A list of numbers rendered in decimal and joined by commas. -/
def joinDecimal (vs : List Nat) : GoString :=
  [comma].intercalate (vs.map decimalRendering)

/-! ## The IPv4 token decoder of package netstat -/

/-- Modelled from the spec: the failure of the address decoder on a token whose
length or character set is invalid. -/
inductive DecodeError where
  | MalformedRecord
  deriving DecidableEq, Repr

/-- Modelled from the spec: the value of one hex character of a token, a digit
or a letter from A to F in either case; any other byte is outside the
character set. -/
def hexValue (c : Nat) : Option Nat :=
  if 48 ≤ c ∧ c ≤ 57 then some (c - 48)
  else if 65 ≤ c ∧ c ≤ 70 then some (c - 55)
  else if 97 ≤ c ∧ c ≤ 102 then some (c - 87)
  else none

/-- Modelled from the spec: the byte that two hex characters represent, high
nibble first. -/
def hexByte (hi lo : Nat) : Option Nat :=
  match hexValue hi, hexValue lo with
  | some h, some l => some (16 * h + l)
  | _, _ => none

/-- Modelled from the spec: the function `parseIPv4` of package netstat is not
among the sources (only its export alias is). An IPv4 address is encoded as
8 hex characters representing 4 bytes in reverse (little-endian) byte order;
a token whose length or character set is invalid is a malformed record. -/
def parseIPv4 (s : GoString) : Except DecodeError (List Nat) :=
  match s with
  | [a1, a0, b1, b0, c1, c0, d1, d0] =>
    match hexByte a1 a0, hexByte b1 b0, hexByte c1 c0, hexByte d1 d0 with
    | some a, some b, some c, some d => Except.ok [d, c, b, a]
    | _, _, _, _ => Except.error DecodeError.MalformedRecord
  | _ => Except.error DecodeError.MalformedRecord

/-- The export `ParseIPv4 = parseIPv4` of `export_test.go`. -/
def ParseIPv4 : GoString → Except DecodeError (List Nat) := parseIPv4

/-! ## Notions the statements about `ParseIPv4` are phrased in -/

/-- A hex character: a digit or a letter from A to F in either case. -/
def isHexChar (c : Nat) : Bool :=
  decide ((48 ≤ c ∧ c ≤ 57) ∨ (65 ≤ c ∧ c ≤ 70) ∨ (97 ≤ c ∧ c ≤ 102))

/-- A lower-case hex letter, from a to f. -/
def isLowerHexLetter (c : Nat) : Bool := decide (97 ≤ c ∧ c ≤ 102)

/-- A hex character with a lower-case letter put in upper case. -/
def upperHex (c : Nat) : Nat := if 97 ≤ c ∧ c ≤ 102 then c - 32 else c

/-- A valid IPv4 hex token: 8 hex characters. -/
def validIPv4Token (s : GoString) : Prop := s.length = 8 ∧ ∀ c ∈ s, isHexChar c = true

instance : DecidablePred validIPv4Token := fun s => by
  unfold validIPv4Token
  infer_instance

/-- The bytes a hex string represents, in the order of the string, two
characters per byte. -/
def tokenBytes : GoString → Option (List Nat)
  | [] => some []
  | [_] => none
  | hi :: lo :: rest =>
    match hexByte hi lo, tokenBytes rest with
    | some b, some bs => some (b :: bs)
    | _, _ => none

/-- The upper-case hex character of a nibble, as the kernel tables write it. -/
def hexChar (d : Nat) : Nat := if d < 10 then 48 + d else 55 + d

/-- The re-encoding of an address: its bytes in reverse order, two upper-case
hex characters per byte. -/
def encodeIPv4 (ip : List Nat) : GoString :=
  (ip.reverse.map (fun b => [hexChar (b / 16), hexChar (b % 16)])).flatten

/-! ## Feature selection and acceptance predicates: theorems -/

/-- Process and namespace selection leaves the eight (transport, family)
features as they are. -/
theorem selectNamespaces_families (f : Flags) (e : EnableFeatures) :
    (selectNamespaces f e).TCP = e.TCP ∧ (selectNamespaces f e).TCP6 = e.TCP6 ∧
    (selectNamespaces f e).UDP = e.UDP ∧ (selectNamespaces f e).UDP6 = e.UDP6 ∧
    (selectNamespaces f e).UDPLite = e.UDPLite ∧ (selectNamespaces f e).UDPLite6 = e.UDPLite6 ∧
    (selectNamespaces f e).Raw = e.Raw ∧ (selectNamespaces f e).Raw6 = e.Raw6 := by
  unfold selectNamespaces
  by_cases h1 : f.netNsPids = [] <;> by_cases h2 : f.netNsName = [] <;>
    by_cases h3 : (commaStringToUint32Array f.netNsPids).1.length = 1 <;>
    by_cases h4 : (Split f.netNsName comma).length = 1 <;>
    simp [h1, h2, h3, h4]

/-- The IPv4 features after family filtering. -/
theorem filterFamilies_v4 (f : Flags) (e : EnableFeatures) :
    (filterFamilies f e).TCP = (e.TCP && !(f.ipv6 && !f.ipv4)) ∧
    (filterFamilies f e).UDP = (e.UDP && !(f.ipv6 && !f.ipv4)) ∧
    (filterFamilies f e).UDPLite = (e.UDPLite && !(f.ipv6 && !f.ipv4)) ∧
    (filterFamilies f e).Raw = (e.Raw && !(f.ipv6 && !f.ipv4)) := by
  unfold filterFamilies
  cases f.ipv4 <;> cases f.ipv6 <;> simp

/-- The IPv6 features after family filtering. -/
theorem filterFamilies_v6 (f : Flags) (e : EnableFeatures) :
    (filterFamilies f e).TCP6 = (e.TCP6 && !(f.ipv4 && !f.ipv6)) ∧
    (filterFamilies f e).UDP6 = (e.UDP6 && !(f.ipv4 && !f.ipv6)) ∧
    (filterFamilies f e).UDPLite6 = (e.UDPLite6 && !(f.ipv4 && !f.ipv6)) ∧
    (filterFamilies f e).Raw6 = (e.Raw6 && !(f.ipv4 && !f.ipv6)) := by
  unfold filterFamilies
  cases f.ipv4 <;> cases f.ipv6 <;> simp

/-- The eight features after protocol selection, as formulas in the flags. -/
theorem selectProtocols_families (f : Flags) :
    (selectProtocols f).TCP = (f.verbose || f.tcp || !(f.tcp || f.udp || f.udplite || f.raw)) ∧
    (selectProtocols f).TCP6 = (f.verbose || f.tcp || !(f.tcp || f.udp || f.udplite || f.raw)) ∧
    (selectProtocols f).UDP = (f.verbose || f.udp || !(f.tcp || f.udp || f.udplite || f.raw)) ∧
    (selectProtocols f).UDP6 = (f.verbose || f.udp || !(f.tcp || f.udp || f.udplite || f.raw)) ∧
    (selectProtocols f).UDPLite = (f.verbose || f.udplite) ∧
    (selectProtocols f).UDPLite6 = (f.verbose || f.udplite) ∧
    (selectProtocols f).Raw = (f.verbose || f.raw) ∧
    (selectProtocols f).Raw6 = (f.verbose || f.raw) := by
  unfold selectProtocols
  cases f.verbose <;> cases f.tcp <;> cases f.udp <;> cases f.udplite <;> cases f.raw <;> simp

/-- The unspecified addresses are 0.0.0.0 in its 4-byte and 16-byte forms and the
all-zero IPv6 address. -/
theorem IsUnspecified_iff (ip : List Nat) :
    IsUnspecified ip = true ↔
      (ip = [0, 0, 0, 0] ∨ ip = IPv4zero ∨ ip = IPv6unspecified) := by
  have h4 : IPv4zero.length = 16 := by decide
  have h6 : IPv6unspecified.length = 16 := by decide
  unfold IsUnspecified IPEqual
  rw [h4, h6]
  by_cases hl : ip.length = 16
  · have hne : ip ≠ [0, 0, 0, 0] := by
      intro h
      rw [h] at hl
      simp at hl
    simp [hl, hne]
  · have hne4 : ip ≠ IPv4zero := by
      intro h
      rw [h] at hl
      exact hl h4
    have hne6 : ip ≠ IPv6unspecified := by
      intro h
      rw [h] at hl
      exact hl h6
    by_cases hl4 : ip.length = 4
    · have e1 : List.take 12 IPv4zero = v4InV6Prefix := by decide
      have e2 : List.drop 12 IPv4zero = [0, 0, 0, 0] := by decide
      have e3 : List.take 12 IPv6unspecified ≠ v4InV6Prefix := by decide
      simp [hl4, hne4, hne6, e1, e2, e3]
    · have hne : ip ≠ [0, 0, 0, 0] := by
        intro h
        rw [h] at hl4
        simp at hl4
      simp [hl, hl4, hne, hne4, hne6]

/-- C1: with `-l` and without `-a`, the predicate chosen in `main` accepts an
entry exactly when its remote address is unspecified and its remote port
is 0. -/
theorem listening_accepts_iff (f : Flags) (s : SockTabEntry)
    (ha : f.all = false) (hl : f.listening = true) :
    mainAcceptFn f s = true ↔
      (IsUnspecified s.RemoteEndpoint.IP = true ∧ s.RemoteEndpoint.Port = 0) := by
  simp [mainAcceptFn, ha, hl, acceptListening]

theorem listening_accepts_iff_witness :
    (mainAcceptFn { listening := true }
        { LocalEndpoint := ⟨[0, 0, 0, 0], 22⟩, RemoteEndpoint := ⟨[0, 0, 0, 0], 0⟩ } = true ↔
      (IsUnspecified [0, 0, 0, 0] = true ∧ (0 : Nat) = 0)) ∧
    mainAcceptFn { listening := true }
        { LocalEndpoint := ⟨[0, 0, 0, 0], 22⟩, RemoteEndpoint := ⟨[0, 0, 0, 0], 0⟩ } = true :=
  ⟨listening_accepts_iff { listening := true }
      { LocalEndpoint := ⟨[0, 0, 0, 0], 22⟩, RemoteEndpoint := ⟨[0, 0, 0, 0], 0⟩ } rfl rfl,
    by decide⟩

/-- C2, as stated, fails: an entry whose remote address is 1.2.3.4 and whose
remote port is 0 is rejected by the listening predicate and by the default
predicate alike, so the default predicate is not the complement. -/
theorem established_not_complement :
    mainAcceptFn { listening := true }
        { LocalEndpoint := ⟨[10, 0, 0, 1], 1⟩, RemoteEndpoint := ⟨[1, 2, 3, 4], 0⟩ } = false ∧
    mainAcceptFn { }
        { LocalEndpoint := ⟨[10, 0, 0, 1], 1⟩, RemoteEndpoint := ⟨[1, 2, 3, 4], 0⟩ } = false ∧
    ¬ (∀ s : SockTabEntry,
        mainAcceptFn { } s = true ↔ mainAcceptFn { listening := true } s = false) := by
  refine ⟨by decide, by decide, ?_⟩
  intro h
  have h1 := h { LocalEndpoint := ⟨[10, 0, 0, 1], 1⟩, RemoteEndpoint := ⟨[1, 2, 3, 4], 0⟩ }
  revert h1
  decide

/-- C2, amended: without `-a` and `-l`, the predicate chosen in `main` accepts an
entry exactly when its remote address is not unspecified and its remote port
is not 0; every entry it accepts is rejected by the listening predicate; and
it agrees with the complement of the listening predicate exactly on the
entries whose remote address is unspecified if and only if their remote port
is 0. -/
theorem established_accepts_iff (f : Flags) (s : SockTabEntry)
    (ha : f.all = false) (hl : f.listening = false) :
    (mainAcceptFn f s = true ↔
      (IsUnspecified s.RemoteEndpoint.IP = false ∧ s.RemoteEndpoint.Port ≠ 0)) ∧
    (mainAcceptFn f s = true → acceptListening s = false) ∧
    ((mainAcceptFn f s = !acceptListening s) ↔
      (IsUnspecified s.RemoteEndpoint.IP = true ↔ s.RemoteEndpoint.Port = 0)) := by
  have hm : mainAcceptFn f = acceptEstablished := by simp [mainAcceptFn, ha, hl]
  rw [hm]
  unfold acceptEstablished acceptListening
  cases IsUnspecified s.RemoteEndpoint.IP <;>
    by_cases hp : s.RemoteEndpoint.Port = 0 <;> simp [hp]

theorem established_accepts_iff_witness :
    mainAcceptFn { }
      { LocalEndpoint := ⟨[10, 0, 0, 1], 40000⟩, RemoteEndpoint := ⟨[1, 2, 3, 4], 443⟩ } = true ∧
    acceptListening
      { LocalEndpoint := ⟨[10, 0, 0, 1], 40000⟩, RemoteEndpoint := ⟨[1, 2, 3, 4], 443⟩ } = false :=
  ⟨by decide,
    (established_accepts_iff { }
      { LocalEndpoint := ⟨[10, 0, 0, 1], 40000⟩, RemoteEndpoint := ⟨[1, 2, 3, 4], 443⟩ }
      rfl rfl).2.1 (by decide)⟩

/-- C6: with `-a`, the predicate chosen in `main` accepts every entry, whether or
not `-l` is given as well. -/
theorem all_accepts_everything (f : Flags) (s : SockTabEntry) (ha : f.all = true) :
    mainAcceptFn f s = true := by
  simp [mainAcceptFn, ha, acceptAll]

theorem all_accepts_everything_witness :
    mainAcceptFn { all := true, listening := true }
      { LocalEndpoint := ⟨[10, 0, 0, 1], 40000⟩, RemoteEndpoint := ⟨[1, 2, 3, 4], 443⟩ } = true ∧
    mainAcceptFn { all := true }
      { LocalEndpoint := ⟨[0, 0, 0, 0], 22⟩, RemoteEndpoint := ⟨[0, 0, 0, 0], 0⟩ } = true :=
  ⟨all_accepts_everything { all := true, listening := true } _ rfl,
    all_accepts_everything { all := true } _ rfl⟩

/-- C4: family filtering. With `-4` and without `-6` the four IPv6 features are
false and the four IPv4 features are those of protocol selection; with `-6`
and without `-4` the four IPv4 features are false and the four IPv6 features
are those of protocol selection; with both or neither, all eight features
are those of protocol selection. -/
theorem family_filter (f : Flags) :
    (f.ipv4 = true ∧ f.ipv6 = false →
      (mainFeatures f).TCP6 = false ∧ (mainFeatures f).UDP6 = false ∧
      (mainFeatures f).UDPLite6 = false ∧ (mainFeatures f).Raw6 = false ∧
      (mainFeatures f).TCP = (selectProtocols f).TCP ∧
      (mainFeatures f).UDP = (selectProtocols f).UDP ∧
      (mainFeatures f).UDPLite = (selectProtocols f).UDPLite ∧
      (mainFeatures f).Raw = (selectProtocols f).Raw) ∧
    (f.ipv6 = true ∧ f.ipv4 = false →
      (mainFeatures f).TCP = false ∧ (mainFeatures f).UDP = false ∧
      (mainFeatures f).UDPLite = false ∧ (mainFeatures f).Raw = false ∧
      (mainFeatures f).TCP6 = (selectProtocols f).TCP6 ∧
      (mainFeatures f).UDP6 = (selectProtocols f).UDP6 ∧
      (mainFeatures f).UDPLite6 = (selectProtocols f).UDPLite6 ∧
      (mainFeatures f).Raw6 = (selectProtocols f).Raw6) ∧
    (f.ipv4 = f.ipv6 →
      (mainFeatures f).TCP = (selectProtocols f).TCP ∧
      (mainFeatures f).UDP = (selectProtocols f).UDP ∧
      (mainFeatures f).UDPLite = (selectProtocols f).UDPLite ∧
      (mainFeatures f).Raw = (selectProtocols f).Raw ∧
      (mainFeatures f).TCP6 = (selectProtocols f).TCP6 ∧
      (mainFeatures f).UDP6 = (selectProtocols f).UDP6 ∧
      (mainFeatures f).UDPLite6 = (selectProtocols f).UDPLite6 ∧
      (mainFeatures f).Raw6 = (selectProtocols f).Raw6) := by
  simp only [mainFeatures, selectNamespaces_families, filterFamilies_v4, filterFamilies_v6]
  cases f.ipv4 <;> cases f.ipv6 <;> simp

theorem family_filter_witness :
    (mainFeatures { udplite := true, ipv4 := true }).UDPLite6 = false ∧
    (mainFeatures { udplite := true, ipv4 := true }).UDPLite = true ∧
    (mainFeatures { ipv6 := true }).TCP = false ∧
    (mainFeatures { ipv6 := true }).TCP6 = true ∧
    (mainFeatures { raw := true, ipv4 := true, ipv6 := true }).Raw6 =
      (selectProtocols { raw := true, ipv4 := true, ipv6 := true }).Raw6 ∧
    (mainFeatures { raw := true, ipv4 := true, ipv6 := true }).Raw6 = true :=
  ⟨((family_filter { udplite := true, ipv4 := true }).1 ⟨rfl, rfl⟩).2.2.1,
    by decide,
    ((family_filter { ipv6 := true }).2.1 ⟨rfl, rfl⟩).1,
    by decide,
    ((family_filter { raw := true, ipv4 := true, ipv6 := true }).2.2 rfl).2.2.2.2.2.2.2,
    by decide⟩

/-- C5: protocol selection with neither `-4` nor `-6`. Each transport has equal
IPv4 and IPv6 features; TCP is `v || t || !(t || u || U || w)`, UDP is
`v || u || !(t || u || U || w)`, UDPLite is `v || U` and Raw is `v || w`.
With `-v` all eight features are enabled; with no protocol flag and no `-v`
exactly TCP, TCP6, UDP and UDP6 are enabled. -/
theorem protocol_selection (f : Flags) (h4 : f.ipv4 = false) (h6 : f.ipv6 = false) :
    ((mainFeatures f).TCP6 = (mainFeatures f).TCP ∧
      (mainFeatures f).UDP6 = (mainFeatures f).UDP ∧
      (mainFeatures f).UDPLite6 = (mainFeatures f).UDPLite ∧
      (mainFeatures f).Raw6 = (mainFeatures f).Raw) ∧
    ((mainFeatures f).TCP =
        (f.verbose || f.tcp || !(f.tcp || f.udp || f.udplite || f.raw)) ∧
      (mainFeatures f).UDP =
        (f.verbose || f.udp || !(f.tcp || f.udp || f.udplite || f.raw)) ∧
      (mainFeatures f).UDPLite = (f.verbose || f.udplite) ∧
      (mainFeatures f).Raw = (f.verbose || f.raw)) ∧
    (f.verbose = true →
      (mainFeatures f).TCP = true ∧ (mainFeatures f).TCP6 = true ∧
      (mainFeatures f).UDP = true ∧ (mainFeatures f).UDP6 = true ∧
      (mainFeatures f).UDPLite = true ∧ (mainFeatures f).UDPLite6 = true ∧
      (mainFeatures f).Raw = true ∧ (mainFeatures f).Raw6 = true) ∧
    (f.verbose = false ∧ f.tcp = false ∧ f.udp = false ∧ f.udplite = false ∧ f.raw = false →
      (mainFeatures f).TCP = true ∧ (mainFeatures f).TCP6 = true ∧
      (mainFeatures f).UDP = true ∧ (mainFeatures f).UDP6 = true ∧
      (mainFeatures f).UDPLite = false ∧ (mainFeatures f).UDPLite6 = false ∧
      (mainFeatures f).Raw = false ∧ (mainFeatures f).Raw6 = false) := by
  simp only [mainFeatures, selectNamespaces_families, filterFamilies_v4, filterFamilies_v6,
    selectProtocols_families, h4, h6]
  cases f.verbose <;> cases f.tcp <;> cases f.udp <;> cases f.udplite <;> cases f.raw <;> simp

theorem protocol_selection_witness :
    (mainFeatures { udp := true, raw := true }).TCP = false ∧
    (mainFeatures { udp := true, raw := true }).UDP = true ∧
    (mainFeatures { verbose := true, tcp := true }).Raw6 = true ∧
    (mainFeatures { }).UDPLite = false :=
  ⟨by decide, by decide,
    ((protocol_selection { verbose := true, tcp := true } rfl rfl).2.2.1 rfl).2.2.2.2.2.2.2,
    ((protocol_selection { } rfl rfl).2.2.2 ⟨rfl, rfl, rfl, rfl, rfl⟩).2.2.2.2.1⟩

/-- C9: whatever the `-v`, `-t`, `-u`, `-U`, `-w`, `-4` and `-6` flags are, at least
one of the eight (transport, family) features passed to `Netstat` is
enabled. -/
theorem features_never_empty (f : Flags) :
    ((mainFeatures f).TCP || (mainFeatures f).TCP6 || (mainFeatures f).UDP ||
      (mainFeatures f).UDP6 || (mainFeatures f).UDPLite || (mainFeatures f).UDPLite6 ||
      (mainFeatures f).Raw || (mainFeatures f).Raw6) = true := by
  simp only [mainFeatures, selectNamespaces_families, filterFamilies_v4, filterFamilies_v6,
    selectProtocols_families]
  cases f.verbose <;> cases f.tcp <;> cases f.udp <;> cases f.udplite <;> cases f.raw <;>
    cases f.ipv4 <;> cases f.ipv6 <;> simp

/-! ## `strings.Split` -/

theorem genSplitLoop_cons_sep (sep k : Nat) (cs : GoString) :
    genSplitLoop sep (k + 1) (sep :: cs) = [] :: genSplitLoop sep k cs := by
  simp [genSplitLoop, IndexByte]

theorem genSplitLoop_cons_ne (sep k c : Nat) (cs : GoString) (h : c ≠ sep) :
    genSplitLoop sep k (c :: cs) = (genSplitLoop sep k cs).modifyHead (List.cons c) := by
  cases k with
  | zero => simp [genSplitLoop]
  | succ k =>
    simp only [genSplitLoop, IndexByte, if_neg h]
    cases IndexByte cs sep with
    | none => simp
    | some m => simp

/-- The model of `strings.Split` computes the usual splitting of a list at every
occurrence of the separator. -/
theorem Split_eq_splitOn (s : GoString) (sep : Nat) : Split s sep = s.splitOn sep := by
  induction s with
  | nil => simp [Split, Count, genSplitLoop]
  | cons c cs ih =>
    unfold Split Count at ih ⊢
    unfold List.splitOn at ih ⊢
    by_cases h : c = sep
    · subst h
      simp [genSplitLoop_cons_sep, ih]
    · have h2 : List.count sep (c :: cs) = List.count sep cs := by
        simp [List.count_cons, h]
      rw [h2, genSplitLoop_cons_ne sep _ c cs h, ih]
      simp [h]

/-- The fields joined by the separator give the string back, and there is one
field more than there are separators. -/
theorem Split_spec (s : GoString) (sep : Nat) :
    [sep].intercalate (Split s sep) = s ∧ (Split s sep).length = Count s sep + 1 := by
  refine ⟨by rw [Split_eq_splitOn]; exact List.intercalate_splitOn s sep, ?_⟩
  induction s with
  | nil => simp [Split, Count, genSplitLoop]
  | cons c cs ih =>
    unfold Split Count at ih ⊢
    by_cases h : c = sep
    · subst h
      simp [genSplitLoop_cons_sep, ih]
    · have h2 : List.count sep (c :: cs) = List.count sep cs := by
        simp [List.count_cons, h]
      rw [h2, genSplitLoop_cons_ne sep _ c cs h]
      cases hg : genSplitLoop sep (List.count sep cs) cs with
      | nil => rw [hg] at ih; simp at ih
      | cons a as => rw [hg] at ih; simpa using ih

theorem Split_length_eq_one (s : GoString) (sep : Nat) :
    (Split s sep).length = 1 ↔ sep ∉ s := by
  rw [(Split_spec s sep).2, Count]
  simp [List.count_eq_zero]

theorem Split_intercalate (sep : Nat) (ls : List GoString) (hx : ∀ l ∈ ls, sep ∉ l)
    (hls : ls ≠ []) : Split ([sep].intercalate ls) sep = ls := by
  rw [Split_eq_splitOn]
  exact List.splitOn_intercalate ls sep hx hls

/-! ## `strconv.ParseUint` in base 10 with 32 bits -/

theorem digitOf_digit (c : Nat) (h : isDecimalDigit c = true) : digitOf c = some (c - 48) := by
  simp only [isDecimalDigit, decide_eq_true_eq] at h
  simp [digitOf, h]

theorem digitOf_nondigit (c d : Nat) (h : isDecimalDigit c = false) (hd : digitOf c = some d) :
    10 ≤ d := by
  simp only [isDecimalDigit, decide_eq_false_iff_not] at h
  unfold digitOf at hd
  rw [if_neg h] at hd
  split at hd
  · simp only [Option.some.injEq] at hd
    omega
  · simp at hd

theorem decimalFrom_nil (n : Nat) : decimalFrom n [] = n := rfl

theorem decimalFrom_cons (n c : Nat) (cs : GoString) :
    decimalFrom n (c :: cs) = decimalFrom (n * 10 + (c - 48)) cs := rfl

theorem le_decimalFrom (cs : GoString) (n : Nat) : n ≤ decimalFrom n cs := by
  induction cs generalizing n with
  | nil => rw [decimalFrom_nil]
  | cons c cs ih =>
    rw [decimalFrom_cons]
    have := ih (n * 10 + (c - 48))
    omega

/-- The digit loop on a string of digits whose value fits 32 bits returns that
value; on any other string it returns an error. -/
theorem parseUintLoop_spec (cs : GoString) (n : Nat) (hn : n ≤ 4294967295) :
    ((∀ c ∈ cs, isDecimalDigit c = true) ∧ decimalFrom n cs ≤ 4294967295 →
      parseUintLoop 10 4294967295 1844674407370955162 cs n = (decimalFrom n cs, none)) ∧
    (¬ ((∀ c ∈ cs, isDecimalDigit c = true) ∧ decimalFrom n cs ≤ 4294967295) →
      ∃ v e, parseUintLoop 10 4294967295 1844674407370955162 cs n = (v, some e)) := by
  induction cs generalizing n with
  | nil =>
    constructor
    · intro _
      simp [parseUintLoop, decimalFrom_nil]
    · intro h
      exact absurd ⟨by simp, by simpa [decimalFrom_nil] using hn⟩ h
  | cons c cs ih =>
    cases hc : isDecimalDigit c with
    | false =>
      constructor
      · intro h
        have := h.1 c (List.mem_cons_self c cs)
        rw [hc] at this
        exact absurd this (by simp)
      · intro _
        cases hd : digitOf c with
        | none => exact ⟨0, NumError.ErrSyntax, by simp [parseUintLoop, hd]⟩
        | some d =>
          have h10 := digitOf_nondigit c d hc hd
          exact ⟨0, NumError.ErrSyntax, by simp [parseUintLoop, hd, h10]⟩
    | true =>
      have hd := digitOf_digit c hc
      have hc2 : 48 ≤ c ∧ c ≤ 57 := by simpa [isDecimalDigit] using hc
      have hlt : ¬ (c - 48 ≥ 10) := by omega
      have hcut : ¬ (n ≥ 1844674407370955162) := by omega
      have hmod0 : (n * 10) % 2 ^ 64 = n * 10 := by
        apply Nat.mod_eq_of_lt
        norm_num
        omega
      have hmod1 : (n * 10 + (c - 48)) % 2 ^ 64 = n * 10 + (c - 48) := by
        apply Nat.mod_eq_of_lt
        norm_num
        omega
      have hstep : parseUintLoop 10 4294967295 1844674407370955162 (c :: cs) n =
          if n * 10 + (c - 48) > 4294967295 then (4294967295, some NumError.ErrRange)
          else parseUintLoop 10 4294967295 1844674407370955162 cs (n * 10 + (c - 48)) := by
        rw [parseUintLoop, hd]
        simp only [if_neg hlt, if_neg hcut, hmod0, hmod1]
        have hnl : ¬ (n * 10 + (c - 48) < n * 10) := by omega
        by_cases hgt : n * 10 + (c - 48) > 4294967295
        · simp [hgt]
        · simp [hgt, hnl]
      rw [hstep]
      by_cases hgt : n * 10 + (c - 48) > 4294967295
      · rw [if_pos hgt]
        constructor
        · intro h
          have h1 := le_decimalFrom cs (n * 10 + (c - 48))
          have h2 := h.2
          rw [decimalFrom_cons] at h2
          omega
        · intro _
          exact ⟨_, _, rfl⟩
      · rw [if_neg hgt]
        have ih2 := ih (n * 10 + (c - 48)) (by omega)
        constructor
        · intro h
          rw [decimalFrom_cons]
          exact ih2.1 ⟨fun x hx => h.1 x (List.mem_cons_of_mem c hx), by
            have h2 := h.2
            rw [decimalFrom_cons] at h2
            exact h2⟩
        · intro h
          apply ih2.2
          intro h3
          apply h
          refine ⟨?_, by rw [decimalFrom_cons]; exact h3.2⟩
          intro x hx
          rcases List.mem_cons.1 hx with rfl | hx
          · exact hc
          · exact h3.1 x hx

/-- In base 10 with 32 bits, ParseUint returns the decimal value of a valid field
and an error on every other string. -/
theorem ParseUint_spec (s : GoString) :
    (validField s → ParseUint s 10 32 = (decimalValue s, none)) ∧
    (¬ validField s → ∃ v e, ParseUint s 10 32 = (v, some e)) := by
  by_cases hs : s = []
  · subst hs
    constructor
    · intro h
      exact absurd rfl h.1
    · intro _
      exact ⟨0, NumError.ErrSyntax, by simp [ParseUint]⟩
  · have hP : ParseUint s 10 32 = parseUintLoop 10 4294967295 1844674407370955162 s 0 := by
      simp [ParseUint, hs, maxUint64]
    rw [hP]
    have h := parseUintLoop_spec s 0 (by omega)
    constructor
    · intro hv
      exact h.1 ⟨hv.2.1, hv.2.2⟩
    · intro hv
      apply h.2
      intro h3
      exact hv ⟨hs, h3.1, h3.2⟩

/-! ## `commaStringToUint32Array` -/

theorem take_succ_set (arr : List Nat) (i v : Nat) (h : i < arr.length) :
    (arr.set i v).take (i + 1) = arr.take i ++ [v] := by
  rw [List.take_succ, List.set_take, List.set_eq_of_length_le (by simp)]
  simp [h]

/-- The loop started at index `i` with all fields valid fills the slice from
index `i` on with the field values; with an invalid field it returns the nil
slice and an error. -/
theorem commaLoop_spec (fs : List GoString) (i : Nat) (arr : List Nat)
    (hlen : arr.length = i + fs.length) :
    ((∀ f ∈ fs, validField f) →
      commaLoop fs i arr = (arr.take i ++ fs.map decimalValue, none)) ∧
    ((∃ f ∈ fs, ¬ validField f) → ∃ e, commaLoop fs i arr = ([], some e)) := by
  induction fs generalizing i arr with
  | nil =>
    constructor
    · intro _
      have : arr.take i = arr := List.take_of_length_le (by simp at hlen; omega)
      simp [commaLoop, this]
    · rintro ⟨f, hf, _⟩
      simp at hf
  | cons f rest ih =>
    simp only [List.length_cons] at hlen
    by_cases hv : validField f
    · have hP := (ParseUint_spec f).1 hv
      have hval : decimalValue f % 2 ^ 32 = decimalValue f := by
        apply Nat.mod_eq_of_lt
        have := hv.2.2
        norm_num
        omega
      have hstep : commaLoop (f :: rest) i arr =
          commaLoop rest (i + 1) (arr.set i (decimalValue f)) := by
        rw [commaLoop, hP]
        simp only [hval]
      have ih2 := ih (i + 1) (arr.set i (decimalValue f)) (by simp; omega)
      rw [hstep, take_succ_set arr i _ (by omega)] at *
      constructor
      · intro h
        rw [ih2.1 (fun g hg => h g (List.mem_cons_of_mem f hg))]
        simp
      · rintro ⟨g, hg, hgv⟩
        rcases List.mem_cons.1 hg with rfl | hg
        · exact absurd hv hgv
        · exact ih2.2 ⟨g, hg, hgv⟩
    · obtain ⟨v, e, hP⟩ := (ParseUint_spec f).2 hv
      have hstep : commaLoop (f :: rest) i arr = ([], some e) := by
        rw [commaLoop, hP]
      constructor
      · intro h
        exact absurd (h f (List.mem_cons_self f rest)) hv
      · intro _
        exact ⟨e, hstep⟩

/-- The two outcomes of `commaStringToUint32Array`: every field valid and the list
of field values returned, or some field invalid and the nil slice returned
with an error. -/
theorem commaStringToUint32Array_cases (s : GoString) :
    ((∀ f ∈ Split s comma, validField f) ∧
      commaStringToUint32Array s = ((Split s comma).map decimalValue, none)) ∨
    ((∃ f ∈ Split s comma, ¬ validField f) ∧
      ∃ e, commaStringToUint32Array s = ([], some e)) := by
  have h := commaLoop_spec (Split s comma) 0 (List.replicate (Split s comma).length 0)
    (by simp)
  by_cases hall : ∀ f ∈ Split s comma, validField f
  · left
    refine ⟨hall, ?_⟩
    unfold commaStringToUint32Array
    simpa using h.1 hall
  · right
    have hex : ∃ f ∈ Split s comma, ¬ validField f := by
      by_contra hne
      apply hall
      intro f hf
      by_contra hvf
      exact hne ⟨f, hf, hvf⟩
    exact ⟨hex, h.2 hex⟩

/-! ## Decimal rendering -/

theorem decimalDigitsLoop_value (k : Nat) (n : Nat) (acc : GoString) (h : n ≤ k) :
    decimalFrom 0 (decimalDigitsLoop k n acc) = decimalFrom n acc := by
  induction k generalizing n acc with
  | zero =>
    have : n = 0 := by omega
    subst this
    rfl
  | succ k ih =>
    rw [decimalDigitsLoop]
    by_cases hn : n < 10
    · rw [if_pos hn, decimalFrom_cons]
      congr 1
      omega
    · rw [if_neg hn, ih (n / 10) _ (by omega), decimalFrom_cons]
      congr 1
      omega

theorem decimalDigitsLoop_digits (k : Nat) (n : Nat) (acc : GoString)
    (hacc : ∀ c ∈ acc, isDecimalDigit c = true) :
    decimalDigitsLoop k n acc ≠ [] ∧ ∀ c ∈ decimalDigitsLoop k n acc, isDecimalDigit c = true := by
  induction k generalizing n acc with
  | zero =>
    rw [decimalDigitsLoop]
    refine ⟨by simp, ?_⟩
    intro c hc
    rcases List.mem_cons.1 hc with rfl | hc
    · simp only [isDecimalDigit, decide_eq_true_eq]
      omega
    · exact hacc c hc
  | succ k ih =>
    rw [decimalDigitsLoop]
    by_cases hn : n < 10
    · rw [if_pos hn]
      refine ⟨by simp, ?_⟩
      intro c hc
      rcases List.mem_cons.1 hc with rfl | hc
      · simp only [isDecimalDigit, decide_eq_true_eq]
        omega
      · exact hacc c hc
    · rw [if_neg hn]
      apply ih
      intro c hc
      rcases List.mem_cons.1 hc with rfl | hc
      · simp only [isDecimalDigit, decide_eq_true_eq]
        omega
      · exact hacc c hc

/-- The decimal rendering of a uint32 is a valid field with that value, and it
contains no comma. -/
theorem decimalRendering_spec (v : Nat) (hv : v ≤ 4294967295) :
    validField (decimalRendering v) ∧ decimalValue (decimalRendering v) = v ∧
      comma ∉ decimalRendering v := by
  have hd := decimalDigitsLoop_digits v v [] (by simp)
  have hval : decimalValue (decimalRendering v) = v := by
    unfold decimalValue decimalRendering
    rw [decimalDigitsLoop_value v v [] (Nat.le_refl v), decimalFrom_nil]
  refine ⟨⟨hd.1, hd.2, by rw [hval]; exact hv⟩, hval, ?_⟩
  intro hc
  have := hd.2 comma hc
  revert this
  decide

/-- C8: `commaStringToUint32Array` is all-or-nothing. It returns an error exactly
when some comma-separated field is not a non-empty string of decimal digits
with value at most 4294967295, and then the list is nil; otherwise it returns
the decimal values of the fields, one per field, in field order. The empty
string, an empty field, a signed field, a spaced field and 4294967296 fail.
The decimal renderings of a non-empty list of uint32 values, joined by commas,
parse to that list. -/
theorem commaStringToUint32Array_all_or_nothing :
    (∀ s : GoString,
      ((commaStringToUint32Array s).2 ≠ none ↔ ∃ f ∈ Split s comma, ¬ validField f) ∧
      ((commaStringToUint32Array s).2 ≠ none → (commaStringToUint32Array s).1 = []) ∧
      ((commaStringToUint32Array s).2 = none →
        commaStringToUint32Array s = ((Split s comma).map decimalValue, none) ∧
        (commaStringToUint32Array s).1.length = (Split s comma).length)) ∧
    ((commaStringToUint32Array []).2 ≠ none ∧
      (commaStringToUint32Array [49, 44, 44, 50]).2 ≠ none ∧
      (commaStringToUint32Array [43, 49]).2 ≠ none ∧
      (commaStringToUint32Array [45, 49]).2 ≠ none ∧
      (commaStringToUint32Array [49, 44, 32, 50]).2 ≠ none ∧
      (commaStringToUint32Array [52, 50, 57, 52, 57, 54, 55, 50, 57, 54]).2 ≠ none) ∧
    (∀ vs : List Nat, vs ≠ [] → (∀ v ∈ vs, v ≤ 4294967295) →
      commaStringToUint32Array (joinDecimal vs) = (vs, none)) := by
  refine ⟨?_, ?_, ?_⟩
  · intro s
    rcases commaStringToUint32Array_cases s with ⟨hall, hres⟩ | ⟨hex, e, hres⟩
    · rw [hres]
      refine ⟨?_, by simp, by simp⟩
      constructor
      · intro h
        simp at h
      · rintro ⟨f, hf, hfv⟩
        exact absurd (hall f hf) hfv
    · rw [hres]
      refine ⟨?_, by simp, by simp⟩
      constructor
      · intro _
        exact hex
      · intro _
        simp
  · decide
  · intro vs hne hvs
    have hsplit : Split (joinDecimal vs) comma = vs.map decimalRendering := by
      unfold joinDecimal
      apply Split_intercalate
      · intro l hl
        obtain ⟨v, hv, rfl⟩ := List.mem_map.1 hl
        exact (decimalRendering_spec v (hvs v hv)).2.2
      · simpa using hne
    rcases commaStringToUint32Array_cases (joinDecimal vs) with ⟨_, hres⟩ | ⟨hex, _⟩
    · rw [hres, hsplit, List.map_map]
      congr 1
      conv_rhs => rw [← List.map_id vs]
      apply List.map_congr_left
      intro v hv
      exact (decimalRendering_spec v (hvs v hv)).2.1
    · obtain ⟨f, hf, hfv⟩ := hex
      rw [hsplit] at hf
      obtain ⟨v, hv, rfl⟩ := List.mem_map.1 hf
      exact absurd (decimalRendering_spec v (hvs v hv)).1 hfv

theorem commaStringToUint32Array_all_or_nothing_witness :
    commaStringToUint32Array (joinDecimal [12, 0, 4294967295]) = ([12, 0, 4294967295], none) ∧
    joinDecimal [12, 0, 4294967295] =
      [49, 50, 44, 48, 44, 52, 50, 57, 52, 57, 54, 55, 50, 57, 53] ∧
    (commaStringToUint32Array [49, 50, 44, 48, 48, 55]).1 = [12, 7] :=
  ⟨commaStringToUint32Array_all_or_nothing.2.2 [12, 0, 4294967295] (by decide) (by decide),
    by decide, by decide⟩

/-! ## Namespace selection -/

theorem selectNamespaces_noHostNetwork (f : Flags) (e : EnableFeatures) :
    (selectNamespaces f e).NoHostNetwork =
      (e.NoHostNetwork ||
        (decide (f.netNsPids ≠ []) &&
          decide ((commaStringToUint32Array f.netNsPids).1.length = 1)) ||
        (decide (f.netNsName ≠ []) && decide ((Split f.netNsName comma).length = 1))) := by
  unfold selectNamespaces
  by_cases h1 : f.netNsPids = [] <;> by_cases h2 : f.netNsName = [] <;>
    by_cases h3 : (commaStringToUint32Array f.netNsPids).1.length = 1 <;>
    by_cases h4 : (Split f.netNsName comma).length = 1 <;>
    simp [h1, h2, h3, h4]

theorem noHostNetwork_before_namespaces (f : Flags) :
    (filterFamilies f (selectProtocols f)).NoHostNetwork = false := by
  unfold filterFamilies selectProtocols
  cases f.verbose <;> cases f.tcp <;> cases f.udp <;> cases f.udplite <;> cases f.raw <;>
    cases f.ipv4 <;> cases f.ipv6 <;> simp

/-- A string parses to a one-element list exactly when it has no comma and is a
valid field; the empty string does not. -/
theorem parses_to_one (s : GoString) :
    ((commaStringToUint32Array s).1.length = 1 ↔
      ∃ p, commaStringToUint32Array s = ([p], none)) ∧
    ((∃ p, commaStringToUint32Array s = ([p], none)) ↔ (comma ∉ s ∧ validField s)) ∧
    ((commaStringToUint32Array s).1.length = 1 → s ≠ []) := by
  have hone : comma ∉ s → Split s comma = [s] := by
    intro hc
    have hl := (Split_length_eq_one s comma).2 hc
    have hj := (Split_spec s comma).1
    obtain ⟨x, hx⟩ := List.length_eq_one.1 hl
    rw [hx] at hj
    simp [List.intercalate] at hj
    rw [hx, hj]
  have hnil : ¬ validField ([] : GoString) := fun h => h.1 rfl
  rcases commaStringToUint32Array_cases s with ⟨hall, hres⟩ | ⟨hex, e, hres⟩
  · rw [hres]
    refine ⟨?_, ?_, ?_⟩
    · simp only [List.length_map, Prod.mk.injEq, and_true]
      constructor
      · intro h
        obtain ⟨x, hx⟩ := List.length_eq_one.1 h
        exact ⟨decimalValue x, by simp [hx]⟩
      · rintro ⟨p, hp⟩
        have := congrArg List.length hp
        simpa using this
    · simp only [Prod.mk.injEq, and_true]
      constructor
      · rintro ⟨p, hp⟩
        have hl : (Split s comma).length = 1 := by
          have := congrArg List.length hp
          simpa using this
        have hc := (Split_length_eq_one s comma).1 hl
        refine ⟨hc, ?_⟩
        apply hall
        rw [hone hc]
        simp
      · rintro ⟨hc, _⟩
        exact ⟨decimalValue s, by simp [hone hc]⟩
    · intro _ hs
      subst hs
      exact hnil (hall [] (by simp [Split, Count, genSplitLoop]))
  · rw [hres]
    refine ⟨by simp, ?_, by simp⟩
    simp only [Prod.mk.injEq, List.nil_eq, reduceCtorEq, and_false, exists_false, false_iff]
    rintro ⟨hc, hv⟩
    obtain ⟨f, hf, hfv⟩ := hex
    rw [hone hc] at hf
    simp at hf
    subst hf
    exact hfv hv

/-- C3: the feature selection has NoHostNetwork set exactly when the `-pids` value
parses to a one-element list or the `-netns` value is non-empty and has no
comma. The `-pids` value parses to a one-element list exactly when it has no
comma and is a valid uint32 field, so an empty value, a value with several
pids and a value with a field that does not parse do not set it. -/
theorem noHostNetwork_iff (f : Flags) :
    ((mainFeatures f).NoHostNetwork = true ↔
      ((∃ p, commaStringToUint32Array f.netNsPids = ([p], none)) ∨
        (f.netNsName ≠ [] ∧ comma ∉ f.netNsName))) ∧
    ((∃ p, commaStringToUint32Array f.netNsPids = ([p], none)) ↔
      (comma ∉ f.netNsPids ∧ validField f.netNsPids)) ∧
    ((mainFeatures f).NoHostNetwork = false ↔
      ((f.netNsPids = [] ∨ comma ∈ f.netNsPids ∨ ¬ validField f.netNsPids) ∧
        (f.netNsName = [] ∨ comma ∈ f.netNsName))) := by
  have hp := parses_to_one f.netNsPids
  have hmain : (mainFeatures f).NoHostNetwork = true ↔
      ((∃ p, commaStringToUint32Array f.netNsPids = ([p], none)) ∨
        (f.netNsName ≠ [] ∧ comma ∉ f.netNsName)) := by
    unfold mainFeatures
    rw [selectNamespaces_noHostNetwork, noHostNetwork_before_namespaces,
      ← hp.1, ← Split_length_eq_one f.netNsName comma]
    simp only [Bool.false_or, Bool.or_eq_true, Bool.and_eq_true, decide_eq_true_eq]
    constructor
    · rintro (⟨_, h⟩ | h)
      · exact Or.inl h
      · exact Or.inr h
    · rintro (h | h)
      · exact Or.inl ⟨hp.2.2 h, h⟩
      · exact Or.inr h
  refine ⟨hmain, hp.2.1, ?_⟩
  rw [← Bool.not_eq_true, hmain, hp.2.1]
  have hnil : ¬ validField ([] : GoString) := fun h => h.1 rfl
  by_cases h1 : f.netNsPids = []
  · by_cases h2 : f.netNsName = [] <;> by_cases h3 : comma ∈ f.netNsName <;>
      simp [h1, h2, h3, hnil]
  · by_cases h2 : f.netNsName = [] <;> by_cases h3 : comma ∈ f.netNsName <;>
      by_cases h4 : comma ∈ f.netNsPids <;> by_cases h5 : validField f.netNsPids <;>
      simp [h1, h2, h3, h4, h5]

theorem noHostNetwork_iff_witness :
    (mainFeatures { netNsPids := [52, 50] }).NoHostNetwork = true ∧
    (mainFeatures { netNsName := [110, 115, 49] }).NoHostNetwork = true ∧
    (mainFeatures { netNsPids := [52, 50, 44, 55] }).NoHostNetwork = false ∧
    (mainFeatures { netNsPids := [52, 120] }).NoHostNetwork = false ∧
    (mainFeatures { }).NoHostNetwork = false :=
  ⟨(noHostNetwork_iff { netNsPids := [52, 50] }).1.2 (Or.inl ⟨42, by decide⟩),
    (noHostNetwork_iff { netNsName := [110, 115, 49] }).1.2 (Or.inr (by decide)),
    by decide, by decide, by decide⟩

/-! ## The IPv4 token decoder -/

theorem hexValue_roundtrip (c : Nat) (h : isHexChar c = true) :
    ∃ v, hexValue c = some v ∧ v < 16 ∧ hexChar v = upperHex c := by
  simp only [isHexChar, decide_eq_true_eq] at h
  unfold hexValue hexChar upperHex
  rcases h with h | h | h
  · rw [if_pos h]
    refine ⟨_, rfl, by omega, ?_⟩
    have : ¬ (97 ≤ c ∧ c ≤ 102) := by omega
    rw [if_neg this]
    split <;> omega
  · have h1 : ¬ (48 ≤ c ∧ c ≤ 57) := by omega
    have h2 : ¬ (97 ≤ c ∧ c ≤ 102) := by omega
    rw [if_neg h1, if_pos h, if_neg h2]
    refine ⟨_, rfl, by omega, ?_⟩
    split <;> omega
  · have h1 : ¬ (48 ≤ c ∧ c ≤ 57) := by omega
    have h2 : ¬ (65 ≤ c ∧ c ≤ 70) := by omega
    rw [if_neg h1, if_neg h2, if_pos h, if_pos h]
    refine ⟨_, rfl, by omega, ?_⟩
    split <;> omega

theorem hexByte_roundtrip (hi lo : Nat) (h1 : isHexChar hi = true) (h2 : isHexChar lo = true) :
    ∃ b, hexByte hi lo = some b ∧ b < 256 ∧ hexChar (b / 16) = upperHex hi ∧
      hexChar (b % 16) = upperHex lo := by
  obtain ⟨x, hx, hx16, hxc⟩ := hexValue_roundtrip hi h1
  obtain ⟨y, hy, hy16, hyc⟩ := hexValue_roundtrip lo h2
  refine ⟨16 * x + y, by simp [hexByte, hx, hy], by omega, ?_, ?_⟩
  · have : (16 * x + y) / 16 = x := by omega
    rw [this, hxc]
  · have : (16 * x + y) % 16 = y := by omega
    rw [this, hyc]

theorem hexValue_hexChar (v : Nat) (h : v < 16) : hexValue (hexChar v) = some v := by
  unfold hexChar hexValue
  by_cases h10 : v < 10
  · rw [if_pos h10, if_pos (by omega)]
    congr 1
    omega
  · have h1 : ¬ (48 ≤ 55 + v ∧ 55 + v ≤ 57) := by omega
    rw [if_neg h10, if_neg h1, if_pos (by omega)]
    congr 1
    omega

theorem hexByte_hexChar (b : Nat) (h : b < 256) :
    hexByte (hexChar (b / 16)) (hexChar (b % 16)) = some b := by
  unfold hexByte
  rw [hexValue_hexChar (b / 16) (by omega), hexValue_hexChar (b % 16) (by omega)]
  simp only [Option.some.injEq]
  omega

theorem upperHex_of_not_lower (c : Nat) (h : isLowerHexLetter c = false) : upperHex c = c := by
  simp only [isLowerHexLetter, decide_eq_false_iff_not] at h
  unfold upperHex
  rw [if_neg h]

theorem upperHex_is_hex (c : Nat) (h : isHexChar c = true) :
    isHexChar (upperHex c) = true ∧ isLowerHexLetter (upperHex c) = false := by
  simp only [isHexChar, decide_eq_true_eq] at h
  simp only [isHexChar, isLowerHexLetter, decide_eq_true_eq, decide_eq_false_iff_not]
  unfold upperHex
  split <;> constructor <;> omega

theorem length_eq_eight (l : List Nat) (h : l.length = 8) :
    ∃ a b c d e f g k, l = [a, b, c, d, e, f, g, k] := by
  rcases l with _ | ⟨a, _ | ⟨b, _ | ⟨c, _ | ⟨d, _ | ⟨e, _ | ⟨f, _ | ⟨g, _ | ⟨k, _ | ⟨m, l⟩⟩⟩⟩⟩⟩⟩⟩⟩ <;>
    simp at h
  exact ⟨a, b, c, d, e, f, g, k, rfl⟩

/-- C7, as stated, fails: the token 0F02000a is 8 hex characters and decodes to
10.0.2.15, the same address as 0F02000A, so re-encoding the decoded address
gives 0F02000A and not the original token; no re-encoding at all can give back
every valid token. -/
theorem ParseIPv4_roundtrip_fails :
    validIPv4Token [48, 70, 48, 50, 48, 48, 48, 97] ∧
    ParseIPv4 [48, 70, 48, 50, 48, 48, 48, 97] = Except.ok [10, 0, 2, 15] ∧
    encodeIPv4 [10, 0, 2, 15] = [48, 70, 48, 50, 48, 48, 48, 65] ∧
    encodeIPv4 [10, 0, 2, 15] ≠ [48, 70, 48, 50, 48, 48, 48, 97] ∧
    ¬ (∃ encode : List Nat → GoString, ∀ tok : GoString, validIPv4Token tok →
        ∃ ip, ParseIPv4 tok = Except.ok ip ∧ encode ip = tok) := by
  refine ⟨by decide, rfl, by decide, by decide, ?_⟩
  rintro ⟨encode, h⟩
  obtain ⟨ip1, hp1, he1⟩ := h [48, 70, 48, 50, 48, 48, 48, 97] (by decide)
  obtain ⟨ip2, hp2, he2⟩ := h [48, 70, 48, 50, 48, 48, 48, 65] (by decide)
  have e1 : ParseIPv4 [48, 70, 48, 50, 48, 48, 48, 97] = Except.ok [10, 0, 2, 15] := rfl
  have e2 : ParseIPv4 [48, 70, 48, 50, 48, 48, 48, 65] = Except.ok [10, 0, 2, 15] := rfl
  rw [e1] at hp1
  rw [e2] at hp2
  injection hp1 with hp1
  injection hp2 with hp2
  rw [← hp1] at he1
  rw [← hp2, he1] at he2
  revert he2
  decide

/-- C7, amended: `ParseIPv4` decodes every valid IPv4 hex token (8 hex
characters, letters in either case) to the 4-byte address whose bytes are the
four bytes of the token in reverse order. Re-encoding the decoded address in
upper-case hex gives the token with its letters put in upper case, hence the
original token when it has no lower-case letter, and the re-encoded token
decodes to the same address. The token 0100007F decodes to 127.0.0.1. -/
theorem ParseIPv4_roundtrip_upper :
    (∀ tok : GoString, validIPv4Token tok →
      ∃ bs, tokenBytes tok = some bs ∧ bs.length = 4 ∧ (∀ b ∈ bs, b < 256) ∧
        ParseIPv4 tok = Except.ok bs.reverse ∧
        encodeIPv4 bs.reverse = tok.map upperHex ∧
        ((∀ c ∈ tok, isLowerHexLetter c = false) → encodeIPv4 bs.reverse = tok) ∧
        ParseIPv4 (encodeIPv4 bs.reverse) = Except.ok bs.reverse) ∧
    ParseIPv4 [48, 49, 48, 48, 48, 48, 55, 70] = Except.ok [127, 0, 0, 1] := by
  have key : ∀ tok : GoString, validIPv4Token tok →
      ∃ bs, tokenBytes tok = some bs ∧ bs.length = 4 ∧ (∀ b ∈ bs, b < 256) ∧
        ParseIPv4 tok = Except.ok bs.reverse ∧
        encodeIPv4 bs.reverse = tok.map upperHex ∧
        ParseIPv4 (encodeIPv4 bs.reverse) = Except.ok bs.reverse := by
    rintro tok ⟨hlen, hall⟩
    obtain ⟨a1, a0, b1, b0, c1, c0, d1, d0, rfl⟩ := length_eq_eight tok hlen
    obtain ⟨a, ha, ha256, ha1, ha0⟩ :=
      hexByte_roundtrip a1 a0 (hall _ (by simp)) (hall _ (by simp))
    obtain ⟨b, hb, hb256, hb1, hb0⟩ :=
      hexByte_roundtrip b1 b0 (hall _ (by simp)) (hall _ (by simp))
    obtain ⟨c, hc, hc256, hc1, hc0⟩ :=
      hexByte_roundtrip c1 c0 (hall _ (by simp)) (hall _ (by simp))
    obtain ⟨d, hd, hd256, hd1, hd0⟩ :=
      hexByte_roundtrip d1 d0 (hall _ (by simp)) (hall _ (by simp))
    refine ⟨[a, b, c, d], ?_, rfl, ?_, ?_, ?_, ?_⟩
    · simp [tokenBytes, ha, hb, hc, hd]
    · intro x hx
      simp only [List.mem_cons, List.mem_singleton, List.not_mem_nil, or_false] at hx
      rcases hx with rfl | rfl | rfl | rfl <;> assumption
    · simp [ParseIPv4, parseIPv4, ha, hb, hc, hd]
    · simp [encodeIPv4, ha1, ha0, hb1, hb0, hc1, hc0, hd1, hd0]
    · simp [encodeIPv4, ParseIPv4, parseIPv4, hexByte_hexChar a ha256, hexByte_hexChar b hb256,
        hexByte_hexChar c hc256, hexByte_hexChar d hd256]
  refine ⟨?_, rfl⟩
  intro tok hvalid
  obtain ⟨bs, hbs, hlen, hlt, hparse, henc, hre⟩ := key tok hvalid
  refine ⟨bs, hbs, hlen, hlt, hparse, henc, ?_, ?_⟩
  · intro hno
    rw [henc]
    conv_rhs => rw [← List.map_id tok]
    apply List.map_congr_left
    intro c hc
    exact upperHex_of_not_lower c (hno c hc)
  · exact hre

theorem ParseIPv4_roundtrip_upper_witness :
    (validIPv4Token [48, 102, 48, 50, 48, 48, 48, 65] ∧
      ∃ bs, tokenBytes [48, 102, 48, 50, 48, 48, 48, 65] = some bs ∧ bs.length = 4 ∧
        (∀ b ∈ bs, b < 256) ∧
        ParseIPv4 [48, 102, 48, 50, 48, 48, 48, 65] = Except.ok bs.reverse ∧
        encodeIPv4 bs.reverse = [48, 102, 48, 50, 48, 48, 48, 65].map upperHex ∧
        ((∀ c ∈ [48, 102, 48, 50, 48, 48, 48, 65], isLowerHexLetter c = false) →
          encodeIPv4 bs.reverse = [48, 102, 48, 50, 48, 48, 48, 65]) ∧
        ParseIPv4 (encodeIPv4 bs.reverse) = Except.ok bs.reverse) ∧
    (validIPv4Token [48, 49, 48, 48, 48, 48, 55, 70] ∧
      ∃ bs : List Nat, ParseIPv4 [48, 49, 48, 48, 48, 48, 55, 70] = Except.ok bs.reverse ∧
        encodeIPv4 bs.reverse = [48, 49, 48, 48, 48, 48, 55, 70]) :=
  ⟨⟨by decide, ParseIPv4_roundtrip_upper.1 [48, 102, 48, 50, 48, 48, 48, 65] (by decide)⟩,
    ⟨by decide, by
      obtain ⟨bs, _, _, _, hp, _, hup, _⟩ :=
        ParseIPv4_roundtrip_upper.1 [48, 49, 48, 48, 48, 48, 55, 70] (by decide)
      exact ⟨bs, hp, hup (by decide)⟩⟩⟩

theorem hexValue_some (c v : Nat) (h : hexValue c = some v) : isHexChar c = true := by
  unfold hexValue at h
  simp only [isHexChar, decide_eq_true_eq]
  by_cases h1 : 48 ≤ c ∧ c ≤ 57
  · exact Or.inl h1
  · rw [if_neg h1] at h
    by_cases h2 : 65 ≤ c ∧ c ≤ 70
    · exact Or.inr (Or.inl h2)
    · rw [if_neg h2] at h
      by_cases h3 : 97 ≤ c ∧ c ≤ 102
      · exact Or.inr (Or.inr h3)
      · rw [if_neg h3] at h
        simp at h

theorem hexByte_some (hi lo b : Nat) (h : hexByte hi lo = some b) :
    isHexChar hi = true ∧ isHexChar lo = true := by
  unfold hexByte at h
  cases h1 : hexValue hi with
  | none => simp [h1] at h
  | some x =>
    cases h2 : hexValue lo with
    | none => simp [h1, h2] at h
    | some y => exact ⟨hexValue_some hi x h1, hexValue_some lo y h2⟩

/-- The decoder accepts the valid tokens only: every other string is a malformed
record. -/
theorem ParseIPv4_ok_valid (tok : GoString) (ip : List Nat)
    (h : ParseIPv4 tok = Except.ok ip) : validIPv4Token tok := by
  unfold ParseIPv4 parseIPv4 at h
  split at h
  · split at h
    · rename_i ha hb hc hd
      have h1 := hexByte_some _ _ _ ha
      have h2 := hexByte_some _ _ _ hb
      have h3 := hexByte_some _ _ _ hc
      have h4 := hexByte_some _ _ _ hd
      refine ⟨rfl, ?_⟩
      intro x hx
      simp only [List.mem_cons, List.mem_singleton, List.not_mem_nil, or_false] at hx
      rcases hx with rfl | rfl | rfl | rfl | rfl | rfl | rfl | rfl
      · exact h1.1
      · exact h1.2
      · exact h2.1
      · exact h2.2
      · exact h3.1
      · exact h3.2
      · exact h4.1
      · exact h4.2
    · simp at h
  · simp at h

/-- Fixed vectors of the decoder: 0F02000A and 0f02000a are 10.0.2.15; a letter
outside A to F and a short token are malformed records. -/
theorem ParseIPv4_vectors :
    ParseIPv4 [48, 70, 48, 50, 48, 48, 48, 65] = Except.ok [10, 0, 2, 15] ∧
    ParseIPv4 [48, 102, 48, 50, 48, 48, 48, 97] = Except.ok [10, 0, 2, 15] ∧
    encodeIPv4 [10, 0, 2, 15] = [48, 70, 48, 50, 48, 48, 48, 65] ∧
    ParseIPv4 [48, 70, 48, 50, 48, 48, 48, 71] = Except.error DecodeError.MalformedRecord ∧
    ParseIPv4 [48, 70, 48, 50, 48, 48, 48] = Except.error DecodeError.MalformedRecord :=
  ⟨rfl, rfl, by decide, rfl, rfl⟩

end GoNetstat
